/-
Verification of the Avathon core pipeline: path-parameter sublanguage
(src/utils/path_handler.py), OpenAPI operation extraction and input-schema
synthesis (src/utils/spec_parser.py), and the toolset invocation runtime
(src/toolset.py), shallowly embedded over List Char strings.
-/
import Mathlib

namespace Avathon

/-- Strings are modelled as lists of characters. -/
abbrev Str := List Char

/-- The character class of the regex captures: ASCII letters, digits and
underscore, mirroring the class used by every placeholder pattern. -/
def isNameChar (c : Char) : Bool :=
  c.isAlpha || c.isDigit || c = '_'

/-- Strip an expected leading segment from a string: returns the remainder
when the segment is present, none otherwise. -/
def dropPre : Str → Str → Option Str
  | [], s => some s
  | _ :: _, [] => none
  | p :: ps, c :: cs => if c = p then dropPre ps cs else none

/-- Maximal leading run of name characters, with the remainder. -/
def nameRun : Str → Str × Str
  | [] => ([], [])
  | c :: cs =>
    if isNameChar c then
      let r := nameRun cs
      (c :: r.1, r.2)
    else ([], c :: cs)

/-- Try to match one placeholder pattern, given as a fixed opening segment,
a nonempty greedy name run, and a fixed closing segment, at the start of the
string.  Returns the captured name, the whole matched text, and the rest of
the string.  Because the name class never contains a closing delimiter, the
greedy run followed by a delimiter check is exactly the regex semantics of
the five patterns in path_handler.PARAMETER_PATTERNS. -/
def matchPat (pre suf s : Str) : Option (Str × Str × Str) :=
  match dropPre pre s with
  | none => none
  | some s1 =>
    let r := nameRun s1
    if r.1 = [] then none
    else
      match dropPre suf r.2 with
      | none => none
      | some s3 => some (r.1, pre ++ r.1 ++ suf, s3)

/-- Fuel-indexed scan mirroring re.finditer: try to match at each position,
emit the match with its start offset, and continue past it (matches never
overlap).  Fuel at least the length of the string suffices because a match
always consumes at least one character. -/
def finditerFuel (pre suf : Str) : Nat → Str → Nat → List (Nat × Str × Str)
  | 0, _, _ => []
  | _ + 1, [], _ => []
  | fuel + 1, c :: rest, i =>
    match matchPat pre suf (c :: rest) with
    | some (nm, orig, after) => (i, nm, orig) :: finditerFuel pre suf fuel after (i + orig.length)
    | none => finditerFuel pre suf fuel rest (i + 1)

/-- All matches of one pattern in a string, as (offset, name, matched text). -/
def finditer (pre suf s : Str) : List (Nat × Str × Str) :=
  finditerFuel pre suf s.length s 0

/-- A path parameter token: name, the exact original substring, and its
character offset (PathParameter in path_handler.py). -/
structure PathParameter where
  name : Str
  original_format : Str
  position : Nat
deriving DecidableEq, Repr

/-- The five placeholder notations of PathParameterHandler.PARAMETER_PATTERNS,
each as its fixed opening and closing segments around the captured name:
OpenAPI braces, Express colon, Postman double braces, dollar-brace, angle
brackets, in the source order. -/
def PARAMETER_PATTERNS : List (Str × Str) :=
  [("\x7b".data, "\x7d".data),
   (":".data, [] ),
   ("\x7b\x7b".data, "\x7d\x7d".data),
   ("$\x7b".data, "\x7d".data),
   ("<".data, ">".data)]

/-- Concatenated matches of every pattern, in pattern order. -/
def allMatches (tmpl : Str) : List (Nat × Str × Str) :=
  PARAMETER_PATTERNS.flatMap (fun ps => finditer ps.1 ps.2 tmpl)

/-- Keep the first token seen at each offset (the seen_positions set of
extract_parameters). -/
def dedupAux : List (Nat × Str × Str) → List Nat → List PathParameter
  | [], _ => []
  | (pos, nm, orig) :: rest, seen =>
    if pos ∈ seen then dedupAux rest seen
    else ⟨nm, orig, pos⟩ :: dedupAux rest (pos :: seen)

/-- Insert a token into a position-sorted list, before the first token whose
offset is not smaller. -/
def insertByPos (p : PathParameter) : List PathParameter → List PathParameter
  | [] => [p]
  | q :: qs => if p.position ≤ q.position then p :: q :: qs else q :: insertByPos p qs

/-- Stable sort by offset (parameters.sort(key=lambda p: p.position)). -/
def sortByPos (l : List PathParameter) : List PathParameter :=
  l.foldr insertByPos []

/-- PathParameterHandler.extract_parameters: every match of every pattern,
deduplicated by start offset, sorted by offset. -/
def extract_parameters (tmpl : Str) : List PathParameter :=
  sortByPos (dedupAux (allMatches tmpl) [])

/-- spec_parser._clean_name: prefix names that start with a digit. -/
def _clean_name (s : Str) : Str :=
  match s with
  | [] => []
  | c :: _ => if c.isDigit then "param_".data ++ s else s

/-- A Python dict of parameter values: association list with first-match
lookup; an entry may carry the Python value None. -/
abbrev Values := List (Str × Option Str)

/-- First-match association-list lookup (Python dict lookup). -/
def dictGet {α : Type} : List (Str × α) → Str → Option α
  | [], _ => none
  | (k, v) :: rest, key => if key = k then some v else dictGet rest key

/-- values.get(key): absent keys and keys mapped to None both give None. -/
def pyGet (vs : Values) (key : Str) : Option Str :=
  match dictGet vs key with
  | none => none
  | some v => v

/-- The lookup key used by substitute_parameters for one token name. -/
def keyOf (snake : Bool) (name : Str) : Str :=
  if snake then _clean_name name else name

/-- Fuel-indexed str.replace: replace each non-overlapping occurrence of a
nonempty pattern, scanning left to right. -/
def replaceFuel (old new : Str) : Nat → Str → Str
  | 0, s => s
  | _ + 1, [] => []
  | fuel + 1, c :: rest =>
    match dropPre old (c :: rest) with
    | some after => new ++ replaceFuel old new fuel after
    | none => c :: replaceFuel old new fuel rest

/-- path.replace(old, new).  Every caller passes a nonempty pattern (an
original placeholder text); the empty-pattern guard only makes the model
total. -/
def replaceAll (old new s : Str) : Str :=
  if old = [] then s else replaceFuel old new s.length s

/-- One iteration of the substitution loop: look up the token's (possibly
cleaned) name; replace its exact original text on success, append the raw
name to the missing list otherwise. -/
def substStep (values : Values) (snake : Bool) (acc : Str × List Str) (p : PathParameter) :
    Str × List Str :=
  match pyGet values (keyOf snake p.name) with
  | some v => (replaceAll p.original_format v acc.1, acc.2)
  | none => (acc.1, acc.2 ++ [p.name])

/-- PathParameterHandler.substitute_parameters. -/
def substitute_parameters (tmpl : Str) (values : Values) (snake : Bool) :
    Str × List Str :=
  (extract_parameters tmpl).foldl (substStep values snake) (tmpl, [])

/-- PathParameterHandler.validate_path: re-extract; any leftover token makes
the path invalid. -/
def validate_path (path : Str) : Bool × List Str :=
  let remaining := extract_parameters path
  if remaining = [] then (true, []) else (false, remaining.map (·.name))

/-- The set of characters that can open a placeholder: every pattern's
opening segment starts with one of these. -/
def specialHeads : List Char := ['{', ':', '$', '<']

/-- A string none of whose characters can open a placeholder. -/
def pathSafe (s : Str) : Bool := s.all (fun c => decide (c ∉ specialHeads))

/-- Remove every entry with the given key (a dict in which the key is
absent). -/
def eraseKey (k : Str) (vs : Values) : Values :=
  vs.filter (fun kv => decide (kv.1 ≠ k))

/-! Model of src/utils/spec_parser.py: the OpenAPI document shape the
extractor reads, operation extraction, and input-model synthesis. -/

/-- An OAS parameter object after JSON parsing: only the keys the extractor
reads, each optional because `.get` is used everywhere.  The schema dict is
represented by the single key the pipeline consumes, its "type". -/
structure OASParamObj where
  name : Option Str
  paramIn : Option Str
  required : Option Bool
  schemaType : Option Str
  description : Option Str
deriving DecidableEq, Repr

/-- An empty parameter object, the fallback for a dangling $ref. -/
def emptyParamObj : OASParamObj := ⟨none, none, none, none, none⟩

/-- One entry of an operation's parameter list: inline object or $ref. -/
inductive OASParamEntry where
  | ref (r : Str)
  | inline (p : OASParamObj)
deriving DecidableEq, Repr

/-- A requestBody object: its content map, each media type carrying an
optional schema (the schema value itself is kept as opaque text). -/
structure OASRequestBody where
  content : List (Str × Option Str)
deriving DecidableEq, Repr

/-- One operation object under a method key. -/
structure OASOp where
  operationId : Option Str
  tags : Option (List Str)
  description : Option Str
  summary : Option Str
  parameters : List OASParamEntry
  requestBody : Option OASRequestBody
deriving DecidableEq, Repr

/-- The specification document: paths → methods → operations, plus the
components.parameters table used to resolve $refs. -/
structure OASDoc where
  paths : List (Str × List (Str × OASOp))
  componentParameters : List (Str × OASParamObj)
deriving DecidableEq, Repr

/-- A resolved parameter descriptor as appended by iter_operations. -/
structure ParamDescriptor where
  name : Option Str
  paramIn : Option Str
  required : Bool
  schemaType : Option Str
  description : Str
deriving DecidableEq, Repr

/-- The Operation model of spec_parser.Operation. -/
structure Operation where
  name : Str
  method : Str
  path_template : Str
  tag_path : List Str
  description : Str
  parameters : List ParamDescriptor
  request_body_schema : Option Str
deriving DecidableEq, Repr

/-- Last slash-separated segment of a $ref string (ref.split("/")[-1]). -/
def lastSeg (s : Str) : Str :=
  (s.foldl (fun acc c => if c = '/' then [] else acc ++ [c]) [])

/-- Resolve one parameter entry against the components table; a missing
component gives the empty object (global_params.get(ref, \x7b\x7d)). -/
def resolveParam (globals : List (Str × OASParamObj)) : OASParamEntry → OASParamObj
  | .inline p => p
  | .ref r =>
    match dictGet globals (lastSeg r) with
    | some p => p
    | none => emptyParamObj

/-- Build the descriptor dict appended by iter_operations: required defaults
to false, description to the empty string. -/
def toDescriptor (p : OASParamObj) : ParamDescriptor :=
  { name := p.name
    paramIn := p.paramIn
    required := p.required.getD false
    schemaType := p.schemaType
    description := (p.description).getD [] }

/-- ASCII uppercase of a string (method.upper()). -/
def upperStr (s : Str) : Str := s.map Char.toUpper

/-- The five accepted HTTP methods. -/
def methodAllowed (m : Str) : Bool :=
  ["GET".data, "POST".data, "PUT".data, "PATCH".data, "DELETE".data].contains (upperStr m)

/-- Python str.strip(): drop whitespace from both ends. -/
def stripStr (s : Str) : Str :=
  ((s.dropWhile Char.isWhitespace).reverse.dropWhile Char.isWhitespace).reverse

/-- (op.get("description") or op.get("summary") or ""): first truthy string,
where None and the empty string are falsy. -/
def orElseStr (a b : Option Str) : Str :=
  match a with
  | some s =>
    if s = [] then
      match b with
      | some t => t
      | none => []
    else s
  | none =>
    match b with
    | some t => t
    | none => []

/-- op.get("operationId") or f"\x7bmethod\x7d_\x7bpath\x7d": the synthesized
fallback fires when the identifier is absent or empty. -/
def opName (operationId : Option Str) (method path : Str) : Str :=
  match operationId with
  | some s => if s = [] then method ++ "_".data ++ path else s
  | none => method ++ "_".data ++ path

/-- request_body_schema: the schema under the application/json content key,
if any (other media types are ignored). -/
def bodySchemaOf (rb : Option OASRequestBody) : Option Str :=
  match rb with
  | none => none
  | some r =>
    match dictGet r.content "application/json".data with
    | some s => s
    | none => none

/-- One yielded Operation of iter_operations. -/
def mkOperation (globals : List (Str × OASParamObj)) (path method : Str) (op : OASOp) :
    Operation :=
  { name := opName op.operationId method path
    method := upperStr method
    path_template := path
    tag_path := (op.tags).getD []
    description := stripStr (orElseStr op.description op.summary)
    parameters := op.parameters.map (fun e => toDescriptor (resolveParam globals e))
    request_body_schema := bodySchemaOf op.requestBody }

/-- OpenAPIExtractor.iter_operations: every path, every allowed method. -/
def iter_operations (oas : OASDoc) : List Operation :=
  oas.paths.flatMap (fun pe =>
    pe.2.flatMap (fun me =>
      if methodAllowed me.1 then [mkOperation oas.componentParameters pe.1 me.1 me.2] else []))

/-! Input-model synthesis (_build_input_model_from_operation). -/

/-- The Python type annotation of a synthesized field. -/
inductive PyType where
  | pyStr
  | pyInt
  | pyFloat
  | pyBool
  | pyListAny
  | pyDictStrAny
  | pyDictStrStr
  | pyOptional (t : PyType)
deriving DecidableEq, Repr

/-- The default carried by a synthesized Field: the required ellipsis
sentinel, None, or False. -/
inductive PyDefault where
  | ellipsis
  | noneVal
  | falseVal
deriving DecidableEq, Repr

/-- One synthesized pydantic field: annotation, default, description. -/
structure FieldSpec where
  type : PyType
  default : PyDefault
  description : Str
deriving DecidableEq, Repr

/-- The ordered field dict of a synthesized input model. -/
abbrev Fields := List (Str × FieldSpec)

/-- Python dict assignment: overwrite in place or append at the end. -/
def dictSet {α : Type} : List (Str × α) → Str → α → List (Str × α)
  | [], k, v => [(k, v)]
  | (k2, v2) :: rest, k, v =>
    if k2 = k then (k, v) :: rest else (k2, v2) :: dictSet rest k v

/-- The basic type mapping of _build_input_model_from_operation; anything
unrecognized (including a missing type) stays str. -/
def paramFieldType (schemaType : Option Str) : PyType :=
  if schemaType = some "integer".data then .pyInt
  else if schemaType = some "number".data then .pyFloat
  else if schemaType = some "boolean".data then .pyBool
  else if schemaType = some "array".data then .pyListAny
  else if schemaType = some "object".data then .pyDictStrAny
  else .pyStr

/-- Render an optional string the way a Python f-string renders the value
(None prints as "None"). -/
def showOptStr (s : Option Str) : Str :=
  match s with
  | some v => v
  | none => "None".data

/-- The synthesized field of one parameter descriptor, or none when the
descriptor has no name (Python _clean_name(None) raises there). -/
def buildParamField (p : ParamDescriptor) : Option (Str × FieldSpec) :=
  match p.name with
  | none => none
  | some nm =>
    let ty := paramFieldType p.schemaType
    some (_clean_name nm,
      { type := if p.required then ty else .pyOptional ty
        default := if p.required then .ellipsis else .noneVal
        description := stripStr ("[".data ++ showOptStr p.paramIn ++ "] ".data ++ p.description) })

/-- The parameter loop of _build_input_model_from_operation. -/
def buildParamFields : List ParamDescriptor → Fields → Option Fields
  | [], fs => some fs
  | p :: ps, fs =>
    match buildParamField p with
    | none => none
    | some kv => buildParamFields ps (dictSet fs kv.1 kv.2)

/-- The pagination hint condition: a nonempty intersection of
\x7b"page", "per_page"\x7d with the declared names, or a "cursor" name. -/
def paginationHint (op : Operation) : Bool :=
  let names := op.parameters.map (·.name)
  names.contains (some "page".data) || names.contains (some "per_page".data) ||
    names.contains (some "cursor".data)

/-- The include_all field added under the pagination hint. -/
def includeAllField : FieldSpec :=
  { type := .pyOptional .pyBool
    default := .falseVal
    description := "If True, fetch all pages/cursor results.".data }

/-- _build_input_model_from_operation: the synthesized model name and its
ordered field dict; none models the TypeError on a nameless parameter. -/
def _build_input_model_from_operation (op : Operation) : Option (Str × Fields) :=
  match buildParamFields op.parameters [] with
  | none => none
  | some fs0 =>
    let fs1 :=
      if op.request_body_schema ≠ none then
        dictSet fs0 "body".data
          { type := .pyOptional .pyDictStrAny
            default := .noneVal
            description := "JSON request body".data }
      else fs0
    let fs2 := dictSet fs1 "extra_headers".data
      { type := .pyOptional .pyDictStrStr
        default := .noneVal
        description := "Optional extra headers".data }
    let fs3 := if paginationHint op then dictSet fs2 "include_all".data includeAllField else fs2
    some (_clean_name op.name ++ "_Input".data, fs3)

/-! Model of src/toolset.py: registry load and the tool invocation flow. -/

/-- The two dictionaries AvathonToolset keeps per process. -/
structure RegistryState where
  operations_by_name : List (Str × Operation)
  registry : List (Str × Str)
deriving DecidableEq, Repr

/-- The explicitly empty registry state. -/
def emptyRegistry : RegistryState := ⟨[], []⟩

/-- One iteration of the registry-building loop of _load_operations. -/
def loadStep (st : RegistryState) (op : Operation) : RegistryState :=
  let tool_name := _clean_name op.name
  { operations_by_name := dictSet st.operations_by_name tool_name op
    registry := dictSet st.registry tool_name
      (if op.description = [] then op.method ++ " ".data ++ op.path_template
       else op.description) }

/-- AvathonToolset._load_operations: on any load/extract failure both
dictionaries are reset to empty; otherwise the registry is built from the
extracted operations. -/
def _load_operations : Except Str OASDoc → RegistryState
  | .error _ => emptyRegistry
  | .ok oas => (iter_operations oas).foldl loadStep emptyRegistry

/-- The flattened tool input: scalar parameter values after
model_dump(exclude_none=True), plus the body and extra_headers fields. -/
structure ToolInput where
  kwargs : List (Str × Str)
  body : Option Str
  extra_headers : Option (List (Str × Str))
deriving DecidableEq, Repr

/-- The fail-fast errors raised before any network dispatch. -/
inductive ToolError where
  | missingPathParams (names : List Str)
  | unresolvedParams (names : List Str)
  | executionFailed
deriving DecidableEq, Repr

/-- The request handed to the transport collaborator. -/
structure RequestPlan where
  method : Str
  path : Str
  query : List (Str × Str)
  headers : List (Str × Str)
  body : Option Str
deriving DecidableEq, Repr

/-- The kwargs dict as seen by substitute_parameters (every value present). -/
def kwargsValues (l : List (Str × Str)) : Values :=
  l.map (fun kv => (kv.1, some kv.2))

/-- The query/header partition loop over the declared parameters; a nameless
parameter would raise in Python (_clean_name(None)). -/
def partitionParams (params : List ParamDescriptor) (kwargs : List (Str × Str)) :
    Option (List (Str × Str) × List (Str × Str)) :=
  params.foldl
    (fun acc param =>
      match acc with
      | none => none
      | some (q, h) =>
        match param.name with
        | none => none
        | some nm =>
          match dictGet kwargs (_clean_name nm) with
          | some v =>
            if param.paramIn = some "query".data then some (dictSet q nm v, h)
            else if param.paramIn = some "header".data then some (q, dictSet h nm v)
            else some (q, h)
          | none => some (q, h))
    (some ([], []))

/-- The pre-dispatch part of tool_func: substitute the path, fail fast on
missing names, validate, then partition the remaining parameters. -/
def prepareRequest (op : Operation) (inp : ToolInput) : Except ToolError RequestPlan :=
  let sub := substitute_parameters op.path_template (kwargsValues inp.kwargs) false
  if sub.2 ≠ [] then .error (.missingPathParams sub.2)
  else
    let val := validate_path sub.1
    if val.1 = false then .error (.unresolvedParams val.2)
    else
      match partitionParams op.parameters inp.kwargs with
      | none => .error .executionFailed
      | some (q, h) =>
        let h2 :=
          match inp.extra_headers with
          | some eh => if eh = [] then h else eh.foldl (fun acc kv => dictSet acc kv.1 kv.2) h
          | none => h
        .ok { method := op.method, path := sub.1, query := q, headers := h2, body := inp.body }

/-- The classified outcome of one dispatched call: raise_for_status of the
transport collaborator raises for every non-2xx status, and the handler maps
the status through the 401/403/404/400/5xx/other cascade. -/
inductive Outcome where
  | success (status : Nat)
  | authenticationFailure
  | authorizationFailure (opName : Str)
  | notFoundFailure (opName : Str)
  | invalidRequest (opName : Str)
  | serverError (status : Nat)
  | apiError (status : Nat) (opName : Str)
deriving DecidableEq, Repr

/-- The response-classification cascade of tool_func. -/
def classify_response (opName : Str) (status : Nat) : Outcome :=
  if 200 ≤ status ∧ status ≤ 299 then .success status
  else if status = 401 then .authenticationFailure
  else if status = 403 then .authorizationFailure opName
  else if status = 404 then .notFoundFailure opName
  else if status = 400 then .invalidRequest opName
  else if 500 ≤ status then .serverError status
  else .apiError status opName

/-- The observable result of one invocation: either a fail-fast error with
no dispatched request, or a dispatched request plus classified outcome. -/
inductive InvocationResult where
  | failedBeforeDispatch (e : ToolError)
  | dispatched (plan : RequestPlan) (outcome : Outcome)
deriving DecidableEq, Repr

/-- tool_func, with the transport response abstracted to its status code. -/
def tool_func (op : Operation) (inp : ToolInput) (status : Nat) : InvocationResult :=
  match prepareRequest op inp with
  | .error e => .failedBeforeDispatch e
  | .ok plan => .dispatched plan (classify_response op.name status)

/-! Predicates and concrete instances used by the claim theorems. -/

/-- A specification in which every (resolved) path-location parameter object
carries an explicit required = true, as the OpenAPI standard mandates. -/
def pathParamsRequired (oas : OASDoc) : Prop :=
  ∀ pe ∈ oas.paths, ∀ me ∈ pe.2, ∀ e ∈ me.2.parameters,
    (resolveParam oas.componentParameters e).paramIn = some "path".data →
    (resolveParam oas.componentParameters e).required = some true

/-- A tool input supplying no values at all. -/
def emptyInput : ToolInput := ⟨[], none, none⟩

/-- A structurally well-formed document whose single path parameter omits
the required flag. -/
def docC6 : OASDoc :=
  ⟨[("/a/{id}".data,
     [("get".data,
       ⟨some "getA".data, none, none, none,
        [.inline ⟨some "id".data, some "path".data, none, none, none⟩], none⟩)])], []⟩

/-- The same document with the path parameter marked required = true. -/
def docC6ok : OASDoc :=
  ⟨[("/a/{id}".data,
     [("get".data,
       ⟨some "getA".data, none, none, none,
        [.inline ⟨some "id".data, some "path".data, some true, none, none⟩], none⟩)])], []⟩

/-- The operation extracted from docC6ok. -/
def opC6ok : Operation :=
  mkOperation docC6ok.componentParameters "/a/{id}".data "get".data
    ⟨some "getA".data, none, none, none,
     [.inline ⟨some "id".data, some "path".data, some true, none, none⟩], none⟩

/-- The descriptor extracted from docC6ok's path parameter. -/
def descC6ok : ParamDescriptor :=
  toDescriptor (resolveParam docC6ok.componentParameters
    (.inline ⟨some "id".data, some "path".data, some true, none, none⟩))

/-- A document declaring a digit-leading operation identifier next to the
identifier it could collide with after prefixing. -/
def docC7 : OASDoc :=
  ⟨[("/r".data,
     [("get".data, ⟨some "123resource".data, none, none, none, [], none⟩),
      ("post".data, ⟨some "resource".data, none, none, none, [], none⟩)])], []⟩

/-- The digit-named operation extracted from docC7. -/
def opC7 : Operation :=
  mkOperation docC7.componentParameters "/r".data "get".data
    ⟨some "123resource".data, none, none, none, [], none⟩

/-- An operation declaring a path-location parameter that never occurs in
its path template. -/
def opC2 : Operation :=
  ⟨"getA".data, "GET".data, "/a".data, [], [],
   [⟨some "cid".data, some "path".data, true, none, []⟩], none⟩

/-- An operation with one genuine path placeholder. -/
def opC2w : Operation :=
  ⟨"getB".data, "GET".data, "/b/{pid}".data, [], [],
   [⟨some "pid".data, some "path".data, true, none, []⟩], none⟩

/-- A parameterless operation. -/
def opC5 : Operation := ⟨"ping".data, "GET".data, "/ping".data, [], [], [], none⟩

/-- The request plan prepared for opC5 on an empty input. -/
def planC5 : RequestPlan := ⟨"GET".data, "/ping".data, [], [], none⟩

/-- An operation declaring a page parameter but neither per_page nor
cursor. -/
def opC9 : Operation :=
  ⟨"listItems".data, "GET".data, "/items".data, [], [],
   [⟨some "page".data, some "query".data, false, some "integer".data, []⟩], none⟩

/-- An operation declaring a cursor parameter. -/
def opC9b : Operation :=
  ⟨"listAll".data, "GET".data, "/all".data, [], [],
   [⟨some "cursor".data, some "query".data, false, some "string".data, []⟩], none⟩

/-- The field dict synthesized for opC9b. -/
def fsC9b : Fields :=
  [("cursor".data, ⟨.pyOptional .pyStr, .noneVal, "[query]".data⟩),
   ("extra_headers".data,
    ⟨.pyOptional .pyDictStrStr, .noneVal, "Optional extra headers".data⟩),
   ("include_all".data, includeAllField)]

/-! Helper lemmas about the placeholder scanner. -/

theorem dropPre_spec : ∀ (p s r : Str), dropPre p s = some r → s = p ++ r := by
  intro p
  induction p with
  | nil =>
    intro s r h
    simp [dropPre] at h
    simp [h]
  | cons c ps ih =>
    intro s r h
    cases s with
    | nil => simp [dropPre] at h
    | cons a as =>
      simp only [dropPre] at h
      by_cases hac : a = c
      · rw [if_pos hac] at h
        have := ih as r h
        simp [hac, this]
      · rw [if_neg hac] at h
        exact absurd h (by simp)

theorem nameRun_append : ∀ s : Str, (nameRun s).1 ++ (nameRun s).2 = s := by
  intro s
  induction s with
  | nil => rfl
  | cons c cs ih =>
    by_cases hc : isNameChar c = true
    · simp [nameRun, hc, ih]
    · simp [nameRun, hc]

theorem matchPat_spec (pre suf s nm orig after : Str)
    (h : matchPat pre suf s = some (nm, orig, after)) :
    orig = pre ++ nm ++ suf ∧ nm ≠ [] ∧ s = orig ++ after := by
  unfold matchPat at h
  cases h1 : dropPre pre s with
  | none => rw [h1] at h; exact absurd h (by simp)
  | some s1 =>
    rw [h1] at h
    simp only at h
    obtain ⟨run, rest2, hnr⟩ : ∃ a b, nameRun s1 = (a, b) := ⟨_, _, rfl⟩
    rw [hnr] at h
    simp only at h
    by_cases h2 : run = []
    · rw [if_pos h2] at h; exact absurd h (by simp)
    · rw [if_neg h2] at h
      cases h3 : dropPre suf rest2 with
      | none => rw [h3] at h; exact absurd h (by simp)
      | some s3 =>
        rw [h3] at h
        simp only [Option.some.injEq, Prod.mk.injEq] at h
        obtain ⟨hnm, horig, hafter⟩ := h
        subst hnm horig hafter
        refine ⟨rfl, h2, ?_⟩
        have e1 : s = pre ++ s1 := dropPre_spec pre s s1 h1
        have e2 : rest2 = suf ++ s3 := dropPre_spec suf rest2 s3 h3
        have e3 : run ++ rest2 = s1 := by
          have := nameRun_append s1
          rw [hnr] at this
          exact this
        rw [e1, ← e3, e2]
        simp [List.append_assoc]

theorem matchPat_after_length (pre suf s nm orig after : Str)
    (h : matchPat pre suf s = some (nm, orig, after)) :
    after.length < s.length := by
  obtain ⟨horig, hnm, hs⟩ := matchPat_spec pre suf s nm orig after h
  have : orig.length ≠ 0 := by
    intro h0
    apply hnm
    have : orig = [] := List.eq_nil_of_length_eq_zero h0
    rw [horig] at this
    rcases List.append_eq_nil.mp this with ⟨h1, -⟩
    exact (List.append_eq_nil.mp h1).2
  rw [hs]
  simp
  omega

theorem finditerFuel_sound (pre suf : Str) :
    ∀ (fuel : Nat) (s : Str) (i j : Nat) (nm orig : Str),
      (j, nm, orig) ∈ finditerFuel pre suf fuel s i →
      i ≤ j ∧ orig = pre ++ nm ++ suf ∧ nm ≠ [] ∧
        ((s.drop (j - i)).take orig.length = orig) := by
  intro fuel
  induction fuel with
  | zero => intro s i j nm orig h; simp [finditerFuel] at h
  | succ fl ih =>
    intro s i j nm orig h
    cases s with
    | nil => simp [finditerFuel] at h
    | cons c rest =>
      rw [finditerFuel] at h
      cases hm : matchPat pre suf (c :: rest) with
      | some t =>
        obtain ⟨nm0, orig0, after⟩ := t
        rw [hm] at h
        simp only [List.mem_cons] at h
        obtain ⟨horig0, hnm0, hsplit⟩ := matchPat_spec pre suf _ nm0 orig0 after hm
        rcases h with h | h
        · have hj : j = i ∧ nm = nm0 ∧ orig = orig0 := by
            injection h with h1 h2
            injection h2 with h3 h4
            exact ⟨h1, h3, h4⟩
          obtain ⟨hj, hnm, horig⟩ := hj
          subst hj hnm horig
          refine ⟨le_refl _, horig0, hnm0, ?_⟩
          rw [Nat.sub_self]
          simp only [List.drop_zero]
          rw [hsplit]
          exact List.take_left orig after
        · obtain ⟨h1, h2, h3, h4⟩ := ih after (i + orig0.length) j nm orig h
          refine ⟨by omega, h2, h3, ?_⟩
          have hd : (c :: rest).drop (j - i) = after.drop (j - (i + orig0.length)) := by
            rw [hsplit]
            have : j - i = orig0.length + (j - (i + orig0.length)) := by omega
            rw [this, ← List.drop_drop]
            congr 1
            exact List.drop_left orig0 after
          rw [hd]
          exact h4
      | none =>
        rw [hm] at h
        obtain ⟨h1, h2, h3, h4⟩ := ih rest (i + 1) j nm orig h
        refine ⟨by omega, h2, h3, ?_⟩
        have hd : (c :: rest).drop (j - i) = rest.drop (j - (i + 1)) := by
          have : j - i = (j - (i + 1)) + 1 := by omega
          rw [this]
          rfl
        rw [hd]
        exact h4

theorem finditerFuel_safe (c0 : Char) (pre' suf : Str) (hc : c0 ∈ specialHeads) :
    ∀ (fuel : Nat) (s : Str) (i : Nat), pathSafe s = true →
      finditerFuel (c0 :: pre') suf fuel s i = [] := by
  intro fuel
  induction fuel with
  | zero => intro s i _; rfl
  | succ fl ih =>
    intro s i hs
    cases s with
    | nil => rfl
    | cons c rest =>
      have hall := hs
      rw [pathSafe, List.all_cons, Bool.and_eq_true] at hall
      obtain ⟨hc1, hc2⟩ := hall
      have hcne : c ∉ specialHeads := by simpa using hc1
      have hrest : pathSafe rest = true := by rw [pathSafe]; exact hc2
      have hne : ¬(c = c0) := fun he => hcne (by rw [he]; exact hc)
      have hmp : matchPat (c0 :: pre') suf (c :: rest) = none := by
        simp [matchPat, dropPre, hne]
      rw [finditerFuel, hmp]
      exact ih rest (i + 1) hrest

theorem allMatches_safe (s : Str) (hs : pathSafe s = true) : allMatches s = [] := by
  have h1 : finditer "\x7b".data "\x7d".data s = [] :=
    finditerFuel_safe '\x7b' [] "\x7d".data (by simp [specialHeads]) s.length s 0 hs
  have h2 : finditer ":".data [] s = [] :=
    finditerFuel_safe ':' [] [] (by simp [specialHeads]) s.length s 0 hs
  have h3 : finditer "\x7b\x7b".data "\x7d\x7d".data s = [] :=
    finditerFuel_safe '\x7b' "\x7b".data "\x7d\x7d".data (by simp [specialHeads]) s.length s 0 hs
  have h4 : finditer "$\x7b".data "\x7d".data s = [] :=
    finditerFuel_safe '$' "\x7b".data "\x7d".data (by simp [specialHeads]) s.length s 0 hs
  have h5 : finditer "<".data ">".data s = [] :=
    finditerFuel_safe '<' [] ">".data (by simp [specialHeads]) s.length s 0 hs
  simp [allMatches, PARAMETER_PATTERNS, List.flatMap]
  exact ⟨h1, h2, h3, h4, h5⟩

theorem extract_parameters_safe (s : Str) (hs : pathSafe s = true) :
    extract_parameters s = [] := by
  rw [extract_parameters, allMatches_safe s hs]
  rfl

theorem validate_path_safe (s : Str) (hs : pathSafe s = true) :
    validate_path s = (true, []) := by
  rw [validate_path, extract_parameters_safe s hs]
  rfl

/-! Deduplication and sorting lemmas. -/

theorem dedupAux_mem : ∀ (l : List (Nat × Str × Str)) (seen : List Nat) (x : PathParameter),
    x ∈ dedupAux l seen → (x.position, x.name, x.original_format) ∈ l := by
  intro l
  induction l with
  | nil => intro seen x h; simp [dedupAux] at h
  | cons e rest ih =>
    intro seen x h
    obtain ⟨pos, nm, orig⟩ := e
    rw [dedupAux] at h
    by_cases hp : pos ∈ seen
    · rw [if_pos hp] at h
      exact List.mem_cons_of_mem _ (ih seen x h)
    · rw [if_neg hp] at h
      rcases List.mem_cons.mp h with h | h
      · subst h; exact List.mem_cons_self _ _
      · exact List.mem_cons_of_mem _ (ih _ x h)

theorem dedupAux_pos_not_seen : ∀ (l : List (Nat × Str × Str)) (seen : List Nat)
    (x : PathParameter), x ∈ dedupAux l seen → x.position ∉ seen := by
  intro l
  induction l with
  | nil => intro seen x h; simp [dedupAux] at h
  | cons e rest ih =>
    intro seen x h
    obtain ⟨pos, nm, orig⟩ := e
    rw [dedupAux] at h
    by_cases hp : pos ∈ seen
    · rw [if_pos hp] at h
      exact ih seen x h
    · rw [if_neg hp] at h
      rcases List.mem_cons.mp h with h | h
      · subst h; exact hp
      · have := ih _ x h
        intro hx
        exact this (List.mem_cons_of_mem _ hx)

theorem dedupAux_pos_nodup : ∀ (l : List (Nat × Str × Str)) (seen : List Nat),
    ((dedupAux l seen).map (·.position)).Nodup := by
  intro l
  induction l with
  | nil => intro seen; simp [dedupAux]
  | cons e rest ih =>
    intro seen
    obtain ⟨pos, nm, orig⟩ := e
    rw [dedupAux]
    by_cases hp : pos ∈ seen
    · rw [if_pos hp]; exact ih seen
    · rw [if_neg hp]
      simp only [List.map_cons, List.nodup_cons]
      refine ⟨?_, ih _⟩
      intro hmem
      rcases List.mem_map.mp hmem with ⟨y, hy, hyp⟩
      have := dedupAux_pos_not_seen rest (pos :: seen) y hy
      rw [hyp] at this
      exact this (List.mem_cons_self _ _)

theorem insertByPos_perm (p : PathParameter) :
    ∀ l : List PathParameter, List.Perm (insertByPos p l) (p :: l) := by
  intro l
  induction l with
  | nil => exact List.Perm.refl _
  | cons q qs ih =>
    rw [insertByPos]
    by_cases h : p.position ≤ q.position
    · rw [if_pos h]
    · rw [if_neg h]
      exact List.Perm.trans (List.Perm.cons q ih) (List.Perm.swap p q qs)

theorem sortByPos_perm : ∀ l : List PathParameter, List.Perm (sortByPos l) l := by
  intro l
  induction l with
  | nil => exact List.Perm.refl _
  | cons x xs ih =>
    exact List.Perm.trans (insertByPos_perm x (sortByPos xs)) (List.Perm.cons x ih)

theorem insertByPos_pairwise (p : PathParameter) :
    ∀ l : List PathParameter, l.Pairwise (fun a b => a.position ≤ b.position) →
      (insertByPos p l).Pairwise (fun a b => a.position ≤ b.position) := by
  intro l
  induction l with
  | nil => intro _; simp [insertByPos]
  | cons q qs ih =>
    intro hl
    rw [List.pairwise_cons] at hl
    rw [insertByPos]
    by_cases h : p.position ≤ q.position
    · rw [if_pos h]
      rw [List.pairwise_cons]
      refine ⟨?_, List.pairwise_cons.mpr hl⟩
      intro b hb
      rcases List.mem_cons.mp hb with hb | hb
      · rw [hb]; exact h
      · exact le_trans h (hl.1 b hb)
    · rw [if_neg h]
      rw [List.pairwise_cons]
      refine ⟨?_, ih hl.2⟩
      intro b hb
      have hb2 : b = p ∨ b ∈ qs := by
        have := (insertByPos_perm p qs).mem_iff.mp hb
        simpa using this
      rcases hb2 with hb2 | hb2
      · rw [hb2]; omega
      · exact hl.1 b hb2

theorem sortByPos_sorted : ∀ l : List PathParameter,
    (sortByPos l).Pairwise (fun a b => a.position ≤ b.position) := by
  intro l
  induction l with
  | nil => simp [sortByPos]
  | cons x xs ih => exact insertByPos_pairwise x (sortByPos xs) ih

theorem pairwise_lt_of_le_nodup : ∀ l : List PathParameter,
    l.Pairwise (fun a b => a.position ≤ b.position) → (l.map (·.position)).Nodup →
      l.Pairwise (fun a b => a.position < b.position) := by
  intro l
  induction l with
  | nil => intro _ _; exact List.Pairwise.nil
  | cons a l ih =>
    intro hle hnd
    rw [List.pairwise_cons] at hle
    simp only [List.map_cons, List.nodup_cons] at hnd
    rw [List.pairwise_cons]
    refine ⟨?_, ih hle.2 hnd.2⟩
    intro b hb
    have h1 : a.position ≤ b.position := hle.1 b hb
    have h2 : a.position ≠ b.position := by
      intro he
      exact hnd.1 (List.mem_map.mpr ⟨b, hb, he.symm⟩)
    omega

theorem extract_pos_nodup (tmpl : Str) :
    ((extract_parameters tmpl).map (·.position)).Nodup := by
  rw [extract_parameters]
  have hperm := (sortByPos_perm (dedupAux (allMatches tmpl) [])).map (·.position)
  exact hperm.nodup_iff.mpr (dedupAux_pos_nodup (allMatches tmpl) [])

theorem extract_pairwise_lt (tmpl : Str) :
    (extract_parameters tmpl).Pairwise (fun a b => a.position < b.position) := by
  exact pairwise_lt_of_le_nodup _ (sortByPos_sorted _) (extract_pos_nodup tmpl)

theorem extract_sound (tmpl : Str) (t : PathParameter) (h : t ∈ extract_parameters tmpl) :
    (∃ ps ∈ PARAMETER_PATTERNS, t.original_format = ps.1 ++ t.name ++ ps.2) ∧
    t.name ≠ [] ∧
    (tmpl.drop t.position).take t.original_format.length = t.original_format := by
  rw [extract_parameters] at h
  have h2 : t ∈ dedupAux (allMatches tmpl) [] := (sortByPos_perm _).mem_iff.mp h
  have h3 : (t.position, t.name, t.original_format) ∈ allMatches tmpl :=
    dedupAux_mem _ _ t h2
  rw [allMatches] at h3
  rcases List.mem_flatMap.mp h3 with ⟨ps, hps, hmem⟩
  rw [finditer] at hmem
  obtain ⟨-, horig, hnm, htake⟩ :=
    finditerFuel_sound ps.1 ps.2 tmpl.length tmpl 0 t.position t.name t.original_format hmem
  rw [Nat.sub_zero] at htake
  exact ⟨⟨ps, hps, horig⟩, hnm, htake⟩

/-! Substitution lemmas. -/

theorem substStep_some (values : Values) (snake : Bool) (acc : Str × List Str)
    (p : PathParameter) (v : Str) (hv : pyGet values (keyOf snake p.name) = some v) :
    substStep values snake acc p = (replaceAll p.original_format v acc.1, acc.2) := by
  rw [substStep, hv]

theorem substStep_none (values : Values) (snake : Bool) (acc : Str × List Str)
    (p : PathParameter) (hv : pyGet values (keyOf snake p.name) = none) :
    substStep values snake acc p = (acc.1, acc.2 ++ [p.name]) := by
  rw [substStep, hv]

theorem foldl_substStep_snd (values : Values) (snake : Bool) :
    ∀ (params : List PathParameter) (p : Str) (acc : List Str),
      (params.foldl (substStep values snake) (p, acc)).2 =
        acc ++ (params.filter
          (fun t => (pyGet values (keyOf snake t.name)).isNone)).map (·.name) := by
  intro params
  induction params with
  | nil => intro p acc; simp
  | cons t ts ih =>
    intro p acc
    rw [List.foldl_cons]
    cases hv : pyGet values (keyOf snake t.name) with
    | some v =>
      rw [substStep_some values snake (p, acc) t v hv, ih, List.filter_cons]
      simp [hv]
    | none =>
      rw [substStep_none values snake (p, acc) t hv, ih, List.filter_cons]
      simp [hv]

theorem foldl_substStep_allNone (values : Values) (snake : Bool) :
    ∀ (params : List PathParameter) (p : Str) (acc : List Str),
      (∀ t ∈ params, pyGet values (keyOf snake t.name) = none) →
        params.foldl (substStep values snake) (p, acc) = (p, acc ++ params.map (·.name)) := by
  intro params
  induction params with
  | nil => intro p acc _; simp
  | cons t ts ih =>
    intro p acc hall
    rw [List.foldl_cons,
      substStep_none values snake (p, acc) t (hall t (List.mem_cons_self _ _)),
      ih _ _ (fun u hu => hall u (List.mem_cons_of_mem _ hu))]
    simp

theorem substitute_parameters_missing (tmpl : Str) (values : Values) (snake : Bool) :
    (substitute_parameters tmpl values snake).2 =
      ((extract_parameters tmpl).filter
        (fun t => (pyGet values (keyOf snake t.name)).isNone)).map (·.name) := by
  rw [substitute_parameters, foldl_substStep_snd]
  simp

theorem substStep_congr (v1 v2 : Values) (snake : Bool)
    (h : ∀ key, pyGet v1 key = pyGet v2 key) : substStep v1 snake = substStep v2 snake := by
  funext acc p
  rw [substStep, substStep, h]

theorem substitute_parameters_congr (tmpl : Str) (v1 v2 : Values) (snake : Bool)
    (h : ∀ key, pyGet v1 key = pyGet v2 key) :
    substitute_parameters tmpl v1 snake = substitute_parameters tmpl v2 snake := by
  rw [substitute_parameters, substitute_parameters, substStep_congr v1 v2 snake h]

/-! Dictionary lemmas. -/

theorem pyGet_cons (k : Str) (v : Option Str) (vs : Values) (key : Str) :
    pyGet ((k, v) :: vs) key = if key = k then v else pyGet vs key := by
  unfold pyGet
  rw [dictGet]
  by_cases h : key = k
  · rw [if_pos h, if_pos h]
  · rw [if_neg h, if_neg h]

theorem eraseKey_cons (k k2 : Str) (v2 : Option Str) (rest : Values) :
    eraseKey k ((k2, v2) :: rest) =
      if k2 = k then eraseKey k rest else (k2, v2) :: eraseKey k rest := by
  rw [eraseKey, List.filter_cons]
  by_cases h : k2 = k
  · subst h
    rw [if_neg (by simp), if_pos rfl, eraseKey]
  · rw [if_pos (by simp [h]), if_neg h, eraseKey]

theorem pyGet_eraseKey (k : Str) (vs : Values) (key : Str) :
    pyGet (eraseKey k vs) key = if key = k then none else pyGet vs key := by
  induction vs with
  | nil =>
    by_cases hk : key = k <;> simp [eraseKey, pyGet, dictGet, hk]
  | cons e rest ih =>
    obtain ⟨k2, v2⟩ := e
    rw [eraseKey_cons]
    by_cases h2 : k2 = k
    · rw [if_pos h2, ih]
      subst h2
      by_cases hk : key = k2
      · rw [if_pos hk, if_pos hk]
      · rw [if_neg hk, if_neg hk, pyGet_cons, if_neg hk]
    · rw [if_neg h2, pyGet_cons, pyGet_cons, ih]
      by_cases hk : key = k
      · have hk2 : ¬key = k2 := fun h => h2 (by rw [← h]; exact hk)
        simp [hk, hk2]
        exact fun h => absurd h.symm h2
      · simp [hk]

theorem dictGet_dictSet_self {α : Type} (d : List (Str × α)) (k : Str) (v : α) :
    dictGet (dictSet d k v) k = some v := by
  induction d with
  | nil => simp [dictSet, dictGet]
  | cons e rest ih =>
    obtain ⟨k2, v2⟩ := e
    rw [dictSet]
    by_cases h : k2 = k
    · rw [if_pos h]; simp [dictGet]
    · rw [if_neg h]
      rw [dictGet, if_neg (fun he => h he.symm)]
      exact ih

theorem dictGet_dictSet_ne {α : Type} (d : List (Str × α)) (k : Str) (v : α) (key : Str)
    (h : key ≠ k) : dictGet (dictSet d k v) key = dictGet d key := by
  induction d with
  | nil => simp [dictSet, dictGet, h]
  | cons e rest ih =>
    obtain ⟨k2, v2⟩ := e
    rw [dictSet]
    by_cases h2 : k2 = k
    · rw [if_pos h2]
      subst h2
      rw [dictGet, dictGet, if_neg h, if_neg h]
    · rw [if_neg h2]
      rw [dictGet, dictGet]
      by_cases h3 : key = k2
      · rw [if_pos h3, if_pos h3]
      · rw [if_neg h3, if_neg h3]
        exact ih

theorem dictGet_dictSet_isSome {α : Type} (d : List (Str × α)) (k : Str) (v : α) (key : Str)
    (h : (dictGet d key).isSome = true) : (dictGet (dictSet d k v) key).isSome = true := by
  by_cases hk : key = k
  · rw [hk, dictGet_dictSet_self]; rfl
  · rw [dictGet_dictSet_ne d k v key hk]; exact h

/-! Registry lemmas. -/

theorem foldl_loadStep_get_stable :
    ∀ (ops : List Operation) (st : RegistryState) (k : Str),
      (∀ op ∈ ops, _clean_name op.name ≠ k) →
      dictGet (ops.foldl loadStep st).operations_by_name k = dictGet st.operations_by_name k := by
  intro ops
  induction ops with
  | nil => intro st k _; rfl
  | cons o os ih =>
    intro st k hk
    rw [List.foldl_cons, ih _ k (fun u hu => hk u (List.mem_cons_of_mem _ hu))]
    exact dictGet_dictSet_ne _ _ _ k (Ne.symm (hk o (List.mem_cons_self _ _)))

theorem foldl_loadStep_get_self :
    ∀ (ops : List Operation) (st : RegistryState) (op : Operation), op ∈ ops →
      (ops.map (fun o => _clean_name o.name)).Nodup →
      dictGet (ops.foldl loadStep st).operations_by_name (_clean_name op.name) = some op := by
  intro ops
  induction ops with
  | nil => intro st op h _; simp at h
  | cons o os ih =>
    intro st op hmem hnd
    simp only [List.map_cons, List.nodup_cons] at hnd
    rw [List.foldl_cons]
    rcases List.mem_cons.mp hmem with h | h
    · subst h
      have hstable : ∀ u ∈ os, _clean_name u.name ≠ _clean_name op.name := by
        intro u hu he
        exact hnd.1 (List.mem_map.mpr ⟨u, hu, he⟩)
      rw [foldl_loadStep_get_stable os _ _ hstable]
      exact dictGet_dictSet_self _ _ _
    · exact ih _ op h hnd.2

theorem foldl_loadStep_isSome_stable :
    ∀ (ops : List Operation) (st : RegistryState) (k : Str),
      (dictGet st.operations_by_name k).isSome = true →
      (dictGet (ops.foldl loadStep st).operations_by_name k).isSome = true := by
  intro ops
  induction ops with
  | nil => intro st k h; exact h
  | cons o os ih =>
    intro st k h
    rw [List.foldl_cons]
    exact ih _ k (dictGet_dictSet_isSome _ _ _ k h)

theorem foldl_loadStep_mem_isSome :
    ∀ (ops : List Operation) (st : RegistryState) (op : Operation), op ∈ ops →
      (dictGet (ops.foldl loadStep st).operations_by_name (_clean_name op.name)).isSome = true := by
  intro ops
  induction ops with
  | nil => intro st op h; simp at h
  | cons o os ih =>
    intro st op hmem
    rw [List.foldl_cons]
    rcases List.mem_cons.mp hmem with h | h
    · subst h
      apply foldl_loadStep_isSome_stable
      rw [loadStep]
      simp only
      rw [dictGet_dictSet_self]
      rfl
    · exact ih _ op h

/-! Extractor membership. -/

theorem mem_iter_operations (oas : OASDoc) (op : Operation) :
    op ∈ iter_operations oas ↔ ∃ pe ∈ oas.paths, ∃ me ∈ pe.2,
      methodAllowed me.1 = true ∧
      op = mkOperation oas.componentParameters pe.1 me.1 me.2 := by
  rw [iter_operations]
  rw [List.mem_flatMap]
  constructor
  · rintro ⟨pe, hpe, h⟩
    rcases List.mem_flatMap.mp h with ⟨me, hme, h2⟩
    by_cases hma : methodAllowed me.1 = true
    · rw [if_pos hma] at h2
      rcases List.mem_singleton.mp h2 with h3
      exact ⟨pe, hpe, me, hme, hma, h3⟩
    · rw [if_neg hma] at h2
      simp at h2
  · rintro ⟨pe, hpe, me, hme, hma, heq⟩
    refine ⟨pe, hpe, List.mem_flatMap.mpr ⟨me, hme, ?_⟩⟩
    rw [if_pos hma]
    simp [heq]

/-! Input-model synthesis lemmas. -/

theorem buildParamField_some (p : ParamDescriptor) (kv : Str × FieldSpec)
    (h : buildParamField p = some kv) : ∃ nm, p.name = some nm ∧ kv.1 = _clean_name nm := by
  rw [buildParamField] at h
  cases hn : p.name with
  | none => rw [hn] at h; exact absurd h (by simp)
  | some nm =>
    rw [hn] at h
    simp only [Option.some.injEq] at h
    exact ⟨nm, rfl, by rw [← h]⟩

theorem buildParamFields_get_stable :
    ∀ (ps : List ParamDescriptor) (fs fs2 : Fields) (k : Str),
      buildParamFields ps fs = some fs2 →
      (∀ p ∈ ps, ∀ nm, p.name = some nm → _clean_name nm ≠ k) →
      dictGet fs2 k = dictGet fs k := by
  intro ps
  induction ps with
  | nil =>
    intro fs fs2 k h _
    rw [buildParamFields] at h
    simp only [Option.some.injEq] at h
    rw [h]
  | cons p ps ih =>
    intro fs fs2 k h hk
    rw [buildParamFields] at h
    cases hb : buildParamField p with
    | none => rw [hb] at h; exact absurd h (by simp)
    | some kv =>
      rw [hb] at h
      have := ih _ fs2 k h (fun u hu => hk u (List.mem_cons_of_mem _ hu))
      rw [this]
      obtain ⟨nm, hnm, hkv⟩ := buildParamField_some p kv hb
      refine dictGet_dictSet_ne fs kv.1 kv.2 k ?_
      intro he
      exact hk p (List.mem_cons_self _ _) nm hnm (by rw [← hkv, he])

/-! Claim theorems. -/

/-- Claim C1, counterexample: the claim as stated fails, because a supplied
value may itself introduce placeholder notation.  For template /\x7bp\x7d with the
complete mapping p -> ":q", substitution succeeds with no missing names but
validate_path reports the path invalid with remaining name "q", not
is_valid = true with an empty list. -/
theorem claim_c1_counterexample :
    substitute_parameters "/{p}".data [("p".data, some ":q".data)] true =
      ("/:q".data, []) ∧
    validate_path "/:q".data = (false, ["q".data]) := by
  decide

/-- Claim C1 (amended): for every path template and every value mapping that
supplies a value for each extracted placeholder name, substitute_parameters
reports no missing names; and whenever the resolved path contains none of
the placeholder-opening characters, validate_path on it returns
is_valid = true with an empty remaining-names list.  Scenario A holds as the
witness shows. -/
theorem claim_c1_amended (tmpl : Str) (values : Values) (snake : Bool)
    (hall : ∀ t ∈ extract_parameters tmpl, pyGet values (keyOf snake t.name) ≠ none) :
    (substitute_parameters tmpl values snake).2 = [] ∧
    (pathSafe (substitute_parameters tmpl values snake).1 = true →
      validate_path (substitute_parameters tmpl values snake).1 = (true, [])) := by
  constructor
  · rw [substitute_parameters_missing]
    have hf : (extract_parameters tmpl).filter
        (fun t => (pyGet values (keyOf snake t.name)).isNone) = [] := by
      rw [List.filter_eq_nil_iff]
      intro t ht
      simp only [Option.isNone_iff_eq_none]
      exact fun he => hall t ht he
    rw [hf]
    rfl
  · intro hsafe
    exact validate_path_safe _ hsafe

/-- Claim C1 witness (Scenario A): the template
/companies/\x7bcompany_id\x7d/projects/:project_id/items with values
company_id = "123" and project_id = "456" resolves to
/companies/123/projects/456/items with no missing names, and validate_path
accepts the resolved path. -/
theorem claim_c1_witness :
    (substitute_parameters "/companies/{company_id}/projects/:project_id/items".data
      [("company_id".data, some "123".data), ("project_id".data, some "456".data)] true).1 =
      "/companies/123/projects/456/items".data ∧
    (substitute_parameters "/companies/{company_id}/projects/:project_id/items".data
      [("company_id".data, some "123".data), ("project_id".data, some "456".data)] true).2 =
      [] ∧
    validate_path
      (substitute_parameters "/companies/{company_id}/projects/:project_id/items".data
        [("company_id".data, some "123".data), ("project_id".data, some "456".data)] true).1 =
      (true, []) := by
  refine ⟨by decide, ?_, ?_⟩
  · exact (claim_c1_amended _ _ _ (by decide)).1
  · exact (claim_c1_amended _ _ _ (by decide)).2 (by decide)

/-- Claim C3, counterexample: a placeholder name occurring at two offsets is
reported once per occurrence, not once: for /a/:id/b/:id and an empty
mapping the missing list is ["id", "id"], in which "id" appears twice. -/
theorem claim_c3_counterexample :
    (substitute_parameters "/a/:id/b/:id".data [] false).2 = ["id".data, "id".data] ∧
    ((substitute_parameters "/a/:id/b/:id".data [] false).2).count "id".data = 2 := by
  decide

/-- Claim C3 (amended): substitute_parameters reports unmapped names once
per extracted token, in template order: the missing list equals the names of
the extracted tokens whose lookup fails.  In particular, when the extracted
token names are pairwise distinct, each unmapped name appears exactly
once. -/
theorem claim_c3_amended (tmpl : Str) (values : Values) (snake : Bool) :
    (substitute_parameters tmpl values snake).2 =
      ((extract_parameters tmpl).filter
        (fun t => (pyGet values (keyOf snake t.name)).isNone)).map (·.name) ∧
    (((extract_parameters tmpl).map (·.name)).Nodup →
      (substitute_parameters tmpl values snake).2.Nodup) := by
  refine ⟨substitute_parameters_missing tmpl values snake, ?_⟩
  intro hnd
  rw [substitute_parameters_missing]
  have hsub : List.Sublist
      (((extract_parameters tmpl).filter
        (fun t => (pyGet values (keyOf snake t.name)).isNone)).map (·.name))
      ((extract_parameters tmpl).map (·.name)) :=
    (List.filter_sublist _).map _
  exact List.Nodup.sublist hsub hnd

/-- Claim C3 witness: for /a/:x/b/\x7by\x7d and an empty mapping the missing list
is ["x", "y"], each unmapped name reported exactly once. -/
theorem claim_c3_witness :
    (substitute_parameters "/a/:x/b/{y}".data [] false).2 = ["x".data, "y".data] ∧
    ((substitute_parameters "/a/:x/b/{y}".data [] false).2).Nodup :=
  ⟨by decide, (claim_c3_amended "/a/:x/b/{y}".data [] false).2 (by decide)⟩

/-- Claim C4, counterexample: deduplication is by offset only, so a single
\x7b\x7bname\x7d\x7d occurrence yields two tokens, not one: the outer double-brace match
at its offset and the inner single-brace match one character later. -/
theorem claim_c4_counterexample :
    extract_parameters "/x/{{id}}/y".data =
      [⟨"id".data, "{{id}}".data, 3⟩, ⟨"id".data, "{id}".data, 4⟩] ∧
    (extract_parameters "/x/{{id}}/y".data).length = 2 := by
  decide

/-- Claim C4 (amended): extract_parameters returns tokens carrying the
captured name, the exact original substring found at the token's offset in
the template, and that offset; offsets are pairwise distinct (deduplication
by offset) and strictly ascending.  Overlapping notations at different
offsets, such as the two matches inside one \x7b\x7bname\x7d\x7d occurrence, each keep
their own token. -/
theorem claim_c4_amended (tmpl : Str) :
    (extract_parameters tmpl).Pairwise (fun a b => a.position < b.position) ∧
    (∀ t ∈ extract_parameters tmpl,
      (∃ ps ∈ PARAMETER_PATTERNS, t.original_format = ps.1 ++ t.name ++ ps.2) ∧
      t.name ≠ [] ∧
      (tmpl.drop t.position).take t.original_format.length = t.original_format) :=
  ⟨extract_pairwise_lt tmpl, fun t ht => extract_sound tmpl t ht⟩

/-- Claim C4 witness: on /a/\x7bid\x7d the extracted tokens are strictly ordered
by offset and the single token matches a notation pattern at offset 3. -/
theorem claim_c4_witness :
    (extract_parameters "/a/{id}".data).Pairwise (fun a b => a.position < b.position) ∧
    ((∃ ps ∈ PARAMETER_PATTERNS,
      (⟨"id".data, "{id}".data, 3⟩ : PathParameter).original_format =
        ps.1 ++ (⟨"id".data, "{id}".data, 3⟩ : PathParameter).name ++ ps.2) ∧
     (⟨"id".data, "{id}".data, 3⟩ : PathParameter).name ≠ [] ∧
     ("/a/{id}".data.drop (⟨"id".data, "{id}".data, 3⟩ : PathParameter).position).take
       (⟨"id".data, "{id}".data, 3⟩ : PathParameter).original_format.length =
       (⟨"id".data, "{id}".data, 3⟩ : PathParameter).original_format) :=
  ⟨(claim_c4_amended "/a/{id}".data).1,
   (claim_c4_amended "/a/{id}".data).2 ⟨"id".data, "{id}".data, 3⟩ (by decide)⟩

/-- Claim C10: a placeholder name mapped to None is treated identically to
an absent name: substitution over a mapping whose first entry binds the name
to None equals substitution over the mapping with the name absent; and when
every token's lookup fails the path is returned unsubstituted with every
token name appended to the missing list. -/
theorem claim_c10 (tmpl : Str) (k : Str) (vs : Values) (snake : Bool) :
    substitute_parameters tmpl ((k, none) :: vs) snake =
      substitute_parameters tmpl (eraseKey k vs) snake ∧
    ((∀ t ∈ extract_parameters tmpl, pyGet ((k, none) :: vs) (keyOf snake t.name) = none) →
      substitute_parameters tmpl ((k, none) :: vs) snake =
        (tmpl, (extract_parameters tmpl).map (·.name))) := by
  constructor
  · apply substitute_parameters_congr
    intro key
    rw [pyGet_cons, pyGet_eraseKey]
  · intro hall
    rw [substitute_parameters, foldl_substStep_allNone _ snake _ tmpl [] hall]
    simp

/-- Claim C10 witness: for /a/:x, binding x to None behaves exactly like
leaving x out: the path is unchanged and x is reported missing. -/
theorem claim_c10_witness :
    substitute_parameters "/a/:x".data [("x".data, none)] false =
      substitute_parameters "/a/:x".data [] false ∧
    substitute_parameters "/a/:x".data [("x".data, none)] false =
      ("/a/:x".data, ["x".data]) := by
  have h := claim_c10 "/a/:x".data "x".data [] false
  constructor
  · have h1 := h.1
    rw [show eraseKey "x".data ([] : Values) = [] from rfl] at h1
    exact h1
  · have h2 := h.2 (by decide)
    rw [h2]
    decide

/-- Claim C6, counterexample: the extractor copies the required flag with a
false default instead of enforcing the path invariant: a structurally valid
document whose path parameter omits required yields a path-location
descriptor with required = false. -/
theorem claim_c6_counterexample :
    ∃ op ∈ iter_operations docC6, ∃ p ∈ op.parameters,
      p.paramIn = some "path".data ∧ p.required = false := by
  decide

/-- Claim C6 (amended): for every specification in which every resolved
path-location parameter object carries required = true (as the OpenAPI
standard mandates), every extracted descriptor with location path has its
required flag equal to true; the extractor copies the flag and does not
enforce the invariant. -/
theorem claim_c6_amended (oas : OASDoc) (h : pathParamsRequired oas) :
    ∀ op ∈ iter_operations oas, ∀ p ∈ op.parameters,
      p.paramIn = some "path".data → p.required = true := by
  intro op hop p hp hin
  rcases (mem_iter_operations oas op).mp hop with ⟨pe, hpe, me, hme, hma, heq⟩
  subst heq
  simp only [mkOperation] at hp
  rcases List.mem_map.mp hp with ⟨e, he, hpe2⟩
  subst hpe2
  have hin2 : (resolveParam oas.componentParameters e).paramIn = some "path".data := hin
  have hreq := h pe hpe me hme e he hin2
  show (toDescriptor (resolveParam oas.componentParameters e)).required = true
  rw [toDescriptor]
  simp [hreq]

/-- Claim C6 witness: on docC6ok, whose path parameter carries
required = true, the extracted descriptor is required. -/
theorem claim_c6_witness : descC6ok.required = true :=
  claim_c6_amended docC6ok (by unfold pathParamsRequired; decide) opC6ok (by decide)
    descC6ok (by decide) (by decide)

/-- Claim C7: the extracted Operation's name is the specification's
operation identifier when a nonempty one is present and is otherwise
synthesized as method_path; a digit-leading name is disambiguated by the
param_ prefix; and when the cleaned names are pairwise distinct, every
extracted operation is returned by a registry lookup under its cleaned
name. -/
theorem claim_c7 :
    (∀ (globals : List (Str × OASParamObj)) (path method : Str) (o : OASOp) (s : Str),
      o.operationId = some s → s ≠ [] →
      (mkOperation globals path method o).name = s) ∧
    (∀ (globals : List (Str × OASParamObj)) (path method : Str) (o : OASOp),
      (o.operationId = none ∨ o.operationId = some []) →
      (mkOperation globals path method o).name = method ++ "_".data ++ path) ∧
    (∀ (c : Char) (rest : Str), c.isDigit = true →
      _clean_name (c :: rest) = "param_".data ++ (c :: rest)) ∧
    (∀ (oas : OASDoc),
      ((iter_operations oas).map (fun o => _clean_name o.name)).Nodup →
      ∀ op ∈ iter_operations oas,
        dictGet (_load_operations (.ok oas)).operations_by_name (_clean_name op.name) =
          some op) := by
  refine ⟨?_, ?_, ?_, ?_⟩
  · intro g path method o s h1 h2
    show opName o.operationId method path = s
    rw [h1, opName]
    simp [h2]
  · intro g path method o h1
    show opName o.operationId method path = method ++ "_".data ++ path
    rcases h1 with h1 | h1
    · rw [h1, opName]
    · rw [h1, opName]
      simp
  · intro c rest h
    rw [_clean_name]
    simp [h]
  · intro oas hnd op hop
    rw [_load_operations]
    exact foldl_loadStep_get_self _ _ op hop hnd

/-- Claim C7 witness (Scenario E): the identifier "123resource" is cleaned
to param_123resource, and on docC7 (which also declares "resource") the
cleaned name returns exactly the extracted operation from the loaded
registry. -/
theorem claim_c7_witness :
    _clean_name ('1' :: "23resource".data) = "param_".data ++ ('1' :: "23resource".data) ∧
    dictGet (_load_operations (.ok docC7)).operations_by_name (_clean_name opC7.name) =
      some opC7 :=
  ⟨claim_c7.2.2.1 '1' "23resource".data (by decide),
   claim_c7.2.2.2 docC7 (by decide) opC7 (by decide)⟩

/-- Claim C8: a failed specification load leaves the registry in the
explicitly empty state, with zero operations and an empty name index, so a
zero-count check detects the failure; a successful load indexes every
extracted operation under its cleaned name. -/
theorem claim_c8 :
    (∀ e : Str, _load_operations (.error e) = emptyRegistry) ∧
    emptyRegistry.operations_by_name.length = 0 ∧
    emptyRegistry.registry = [] ∧
    (∀ (oas : OASDoc), ∀ op ∈ iter_operations oas,
      (dictGet (_load_operations (.ok oas)).operations_by_name
        (_clean_name op.name)).isSome = true) := by
  refine ⟨fun e => rfl, rfl, rfl, ?_⟩
  intro oas op hop
  rw [_load_operations]
  exact foldl_loadStep_mem_isSome _ _ op hop

/-- Claim C8 witness: an error outcome leaves the registry empty, and a
successful load of docC7 indexes the extracted operation. -/
theorem claim_c8_witness :
    _load_operations (.error "load failed".data) = emptyRegistry ∧
    (dictGet (_load_operations (.ok docC7)).operations_by_name
      (_clean_name opC7.name)).isSome = true :=
  ⟨claim_c8.1 "load failed".data, claim_c8.2.2.2 docC7 opC7 (by decide)⟩

/-- Claim C9, counterexample: the pagination hint fires on a nonempty
intersection with \x7bpage, per_page\x7d, so an operation declaring only page
(with neither per_page nor cursor) still receives the include_all field,
contradicting the claim's both-names condition. -/
theorem claim_c9_counterexample :
    opC9.parameters.map (·.name) = [some "page".data] ∧
    _build_input_model_from_operation opC9 =
      some ("listItems_Input".data,
        [("page".data, ⟨.pyOptional .pyInt, .noneVal, "[query]".data⟩),
         ("extra_headers".data,
          ⟨.pyOptional .pyDictStrStr, .noneVal, "Optional extra headers".data⟩),
         ("include_all".data, includeAllField)]) := by
  decide

/-- Claim C9 (amended): the synthesized input schema contains the optional
boolean include_all field with default false exactly when the declared
parameter names include page or per_page, or include cursor; otherwise no
include_all field is present, provided no declared parameter itself cleans
to the name include_all. -/
theorem claim_c9_amended (op : Operation) (nm : Str) (fs : Fields)
    (h : _build_input_model_from_operation op = some (nm, fs)) :
    (paginationHint op = true → dictGet fs "include_all".data = some includeAllField) ∧
    (paginationHint op = false →
      (∀ p ∈ op.parameters, ∀ pnm, p.name = some pnm →
        _clean_name pnm ≠ "include_all".data) →
      dictGet fs "include_all".data = none) := by
  rw [_build_input_model_from_operation] at h
  cases hb : buildParamFields op.parameters [] with
  | none => rw [hb] at h; exact absurd h (by simp)
  | some fs0 =>
    rw [hb] at h
    simp only [Option.some.injEq, Prod.mk.injEq] at h
    obtain ⟨hnm, hfs⟩ := h
    constructor
    · intro hpag
      rw [← hfs, if_pos hpag]
      exact dictGet_dictSet_self _ _ _
    · intro hpag hnames
      rw [← hfs, if_neg (by rw [hpag]; exact Bool.false_ne_true)]
      rw [dictGet_dictSet_ne _ _ _ _ (by decide)]
      by_cases hbody : op.request_body_schema ≠ none
      · rw [if_pos hbody, dictGet_dictSet_ne _ _ _ _ (by decide)]
        rw [buildParamFields_get_stable op.parameters [] fs0 _ hb hnames]
        rfl
      · rw [if_neg hbody]
        rw [buildParamFields_get_stable op.parameters [] fs0 _ hb hnames]
        rfl

/-- Claim C9 witness: an operation declaring cursor receives the optional
boolean include_all field with default false. -/
theorem claim_c9_witness :
    dictGet fsC9b "include_all".data = some includeAllField :=
  (claim_c9_amended opC9b "listAll_Input".data fsC9b (by decide)).1 (by decide)

/-- Claim C2, counterexample: the runtime keys the missing-parameter check
on the template's placeholders under the full flattened mapping, not on the
declared path-location descriptors: an operation declaring path parameter
cid absent from the input but whose template has no placeholder dispatches
a request instead of failing with a missing-parameter error. -/
theorem claim_c2_counterexample :
    opC2.parameters.map (fun p => (p.name, p.paramIn)) =
      [(some "cid".data, some "path".data)] ∧
    dictGet emptyInput.kwargs "cid".data = none ∧
    tool_func opC2 emptyInput 200 =
      .dispatched ⟨"GET".data, "/a".data, [], [], none⟩ (.success 200) := by
  decide

/-- Claim C2 (amended): whenever substituting the full flattened input
mapping into the operation's path template reports missing placeholder
names, the invocation fails fast with a missing-path-parameters error
carrying exactly those names and no request is dispatched; the substitution
uses the full flattened mapping, not one restricted to path-location
parameter names. -/
theorem claim_c2_amended (op : Operation) (inp : ToolInput) (status : Nat)
    (h : (substitute_parameters op.path_template (kwargsValues inp.kwargs) false).2 ≠ []) :
    tool_func op inp status =
      .failedBeforeDispatch (.missingPathParams
        (substitute_parameters op.path_template (kwargsValues inp.kwargs) false).2) ∧
    (∀ (plan : RequestPlan) (outcome : Outcome),
      tool_func op inp status ≠ .dispatched plan outcome) := by
  have hprep : prepareRequest op inp =
      .error (.missingPathParams
        (substitute_parameters op.path_template (kwargsValues inp.kwargs) false).2) := by
    rw [prepareRequest]
    simp only
    rw [if_pos h]
  constructor
  · rw [tool_func, hprep]
  · intro plan outcome
    rw [tool_func, hprep]
    simp

/-- Claim C2 witness: an operation whose template needs pid invoked on an
empty input fails with a missing-path-parameters error naming pid, and no
request is dispatched. -/
theorem claim_c2_witness :
    tool_func opC2w emptyInput 200 =
      .failedBeforeDispatch (.missingPathParams ["pid".data]) ∧
    tool_func opC2w emptyInput 200 ≠
      .dispatched ⟨"GET".data, "/b/{pid}".data, [], [], none⟩ (.success 200) := by
  have h := claim_c2_amended opC2w emptyInput 200 (by decide)
  constructor
  · rw [h.1]
    decide
  · exact h.2 _ _

/-- Claim C5: whenever the pre-dispatch phase succeeds, a transport status
of 401 is classified as the authentication failure advising a credential
refresh, and never as the generic unclassified transport error. -/
theorem claim_c5 (op : Operation) (inp : ToolInput) (plan : RequestPlan)
    (h : prepareRequest op inp = .ok plan) :
    tool_func op inp 401 = .dispatched plan .authenticationFailure ∧
    (∀ (plan2 : RequestPlan) (st : Nat) (nm2 : Str),
      tool_func op inp 401 ≠ .dispatched plan2 (.apiError st nm2)) := by
  have hc : classify_response op.name 401 = .authenticationFailure := rfl
  constructor
  · rw [tool_func, h]
    rfl
  · intro plan2 st nm2
    rw [tool_func, h]
    simp only
    rw [hc]
    simp

/-- Claim C5 witness (Scenario D): invoking the parameterless ping
operation against a 401 response yields the authentication failure. -/
theorem claim_c5_witness :
    tool_func opC5 emptyInput 401 = .dispatched planC5 .authenticationFailure :=
  (claim_c5 opC5 emptyInput planC5 (by rfl)).1

end Avathon
